import Mathlib

/-!
Shallow embedding of the DeepSeek R1 message-conversion pipeline:
`convertToR1Format` (src/api/transform/r1-format.ts),
`clearReasoningContentFromMessages` (src/api/transform/clear-reasoning-content.ts)
and `isNewUserTurn` (src/api/transform/detect-turn-boundary.ts),
together with proofs of the specified properties.
-/

/-- Message role.  The source type `Anthropic.Messages.MessageParam` restricts
`role` to the union `"user" | "assistant"`, so the embedding uses a closed
two-constructor enum. -/
inductive Role where
  | user
  | assistant
deriving DecidableEq, Repr

/-- One Anthropic content block.  The source inspects the `type` tag
(`"text"`, `"image"`, `"tool_use"`, `"tool_result"`); an image block carries
`source.media_type` and `source.data`. -/
inductive ContentBlock where
  | text (text : String)
  | image (mediaType : String) (data : String)
  | toolUse (id : String) (name : String) (input : String)
  | toolResult (toolUseId : String) (content : String)
deriving DecidableEq, Repr

/-- Anthropic message content: either a plain string or an array of blocks
(the source branches on `Array.isArray(message.content)`). -/
inductive AnthropicContent where
  | str (s : String)
  | blocks (bs : List ContentBlock)
deriving DecidableEq, Repr

/-- An Anthropic message.  `reasoning_content` models the dynamically attached
`reasoning_content` property (`none` = property absent); `extra` models any
other unknown/extension properties dynamically attached to the object, which
the clearing code preserves via rest-destructuring. -/
structure AnthropicMessage where
  role : Role
  content : AnthropicContent
  reasoning_content : Option String := none
  extra : List (String × String) := []
deriving DecidableEq, Repr

/-- One OpenAI content part (`ChatCompletionContentPartText` or
`ChatCompletionContentPartImage`, the latter holding `image_url.url`). -/
inductive OAIPart where
  | text (text : String)
  | imageUrl (url : String)
deriving DecidableEq, Repr

/-- OpenAI message content: plain string or part array. -/
inductive OAIContent where
  | str (s : String)
  | parts (ps : List OAIPart)
deriving DecidableEq, Repr

/-- An OpenAI chat message as built by the converter.  The converter only ever
constructs `{ role, content }` objects, so `reasoning_content` (`none` =
property absent) records that no reasoning property is ever attached. -/
structure OAIMessage where
  role : Role
  content : OAIContent
  reasoning_content : Option String := none
deriving DecidableEq, Repr

/-- The per-message body of `clearReasoningContentFromMessages`: non-assistant
messages are returned as-is; assistant messages without a `reasoning_content`
property are returned as-is; otherwise the property is removed by
rest-destructuring, preserving every other property. -/
def clearReasoningFromMessage (message : AnthropicMessage) : AnthropicMessage :=
  if message.role = Role.assistant then
    match message.reasoning_content with
    | none => message
    | some _ => { message with reasoning_content := none }
  else
    message

/-- `clearReasoningContentFromMessages` from clear-reasoning-content.ts:
maps the per-message clearing over the history. -/
def clearReasoningContentFromMessages (messages : List AnthropicMessage) :
    List AnthropicMessage :=
  messages.map clearReasoningFromMessage

/-- Modelled from the spec: §4.2 ReasoningScrubber,
`scrub(history, shouldClear)`.  The `shouldClear` dispatch is not under src/
(it lives in the Task caller); per the spec, `false` returns the input
unchanged and `true` applies the source `clearReasoningContentFromMessages`. -/
def scrub (history : List AnthropicMessage) (shouldClear : Bool) :
    List AnthropicMessage :=
  if shouldClear then clearReasoningContentFromMessages history else history

/-- `Array.isArray(content) && content.some((part) => part.type === "tool_use")`. -/
def contentHasToolUse : AnthropicContent → Bool
  | AnthropicContent.str _ => false
  | AnthropicContent.blocks bs =>
    bs.any fun b =>
      match b with
      | ContentBlock.toolUse _ _ _ => true
      | _ => false

/-- `Array.isArray(content) && content.some((part) => part.type === "tool_result")`. -/
def contentHasToolResult : AnthropicContent → Bool
  | AnthropicContent.str _ => false
  | AnthropicContent.blocks bs =>
    bs.any fun b =>
      match b with
      | ContentBlock.toolResult _ _ => true
      | _ => false

/-- `isNewUserTurn` from detect-turn-boundary.ts.  `messages[messages.length-1]`
is `getLast?`; `messages[messages.length-2]` (only consulted when the length-1
check has failed) is `messages.dropLast.getLast?`.  The source's trailing
unknown-role fallback is unrepresentable since the source role type is the
closed union `"user" | "assistant"`. -/
def isNewUserTurn (messages : List AnthropicMessage) : Bool :=
  match messages.getLast? with
  | none => true
  | some lastMessage =>
    match lastMessage.role with
    | Role.user => true
    | Role.assistant =>
      if contentHasToolUse lastMessage.content then false
      else if messages.length = 1 then true
      else
        match messages.dropLast.getLast? with
        | none => true
        | some previousMessage =>
          match previousMessage.role with
          | Role.user =>
            if contentHasToolResult previousMessage.content then false else true
          | Role.assistant => false

/-- The `textParts` accumulator of the converter's `forEach`: the `text` of
every text block, in original order. -/
def blockTexts (bs : List ContentBlock) : List String :=
  bs.filterMap fun b =>
    match b with
    | ContentBlock.text t => some t
    | _ => none

/-- The image-URL string `data:${media_type};base64,${data}`. -/
def imageUrlOf (mediaType data : String) : String :=
  "data:" ++ mediaType ++ ";base64," ++ data

/-- The `imageParts` accumulator of the converter's `forEach`: one
`image_url` part per image block, in original order. -/
def blockImageParts (bs : List ContentBlock) : List OAIPart :=
  bs.filterMap fun b =>
    match b with
    | ContentBlock.image mt d => some (OAIPart.imageUrl (imageUrlOf mt d))
    | _ => none

/-- The `hasImages` flag of the converter's `forEach`. -/
def blocksHaveImages (bs : List ContentBlock) : Bool :=
  bs.any fun b =>
    match b with
    | ContentBlock.image _ _ => true
    | _ => false

/-- The converter's per-message content transcoding (r1-format.ts lines
33-66): string content passes through; array content becomes either the
newline-join of its text blocks (no images) or a part array of one joined
leading text part (omitted when there are no text blocks) followed by the
image parts. -/
def transcodeContent : AnthropicContent → OAIContent
  | AnthropicContent.str s => OAIContent.str s
  | AnthropicContent.blocks bs =>
    if blocksHaveImages bs then
      OAIContent.parts
        ((if (blockTexts bs).length > 0 then
            [OAIPart.text (String.intercalate "\n" (blockTexts bs))]
          else []) ++ blockImageParts bs)
    else
      OAIContent.str (String.intercalate "\n" (blockTexts bs))

/-- Normalization used by the merge branch: `Array.isArray(c) ? c :
[{ type: "text", text: c || "" }]`. -/
def toParts : OAIContent → List OAIPart
  | OAIContent.parts ps => ps
  | OAIContent.str s => [OAIPart.text s]

/-- One iteration of the converter's `reduce` (r1-format.ts lines 31-109):
if the accumulator's last message has the same role, merge contents
(string-string concatenation with `"\n"`, otherwise array concatenation after
normalization); otherwise push a fresh `{ role, content }` message. -/
def mergeStep (merged : List OAIMessage) (message : AnthropicMessage) :
    List OAIMessage :=
  let messageContent := transcodeContent message.content
  match merged.getLast? with
  | some lastMessage =>
    if lastMessage.role = message.role then
      match lastMessage.content, messageContent with
      | OAIContent.str a, OAIContent.str b =>
        merged.dropLast ++ [{ lastMessage with content := OAIContent.str (a ++ "\n" ++ b) }]
      | lc, nc =>
        merged.dropLast ++
          [{ lastMessage with content := OAIContent.parts (toParts lc ++ toParts nc) }]
    else
      merged ++ [{ role := message.role, content := messageContent }]
  | none => merged ++ [{ role := message.role, content := messageContent }]

/-- `convertToR1Format` from r1-format.ts: clear `reasoning_content` from
assistant messages, then fold the merge step over the cleaned history. -/
def convertToR1Format (messages : List AnthropicMessage) : List OAIMessage :=
  (clearReasoningContentFromMessages messages).foldl mergeStep []

/-- Role-level abstraction of one merge-fold iteration: merging leaves the
accumulator's role sequence unchanged, pushing appends the new role. -/
def pushRole (rs : List Role) (r : Role) : List Role :=
  if rs.getLast? = some r then rs else rs ++ [r]

/-- Tags the two block kinds the transcoder's `forEach` leaves unhandled. -/
def isToolBlock : ContentBlock → Bool
  | ContentBlock.toolUse _ _ _ => true
  | ContentBlock.toolResult _ _ => true
  | _ => false

/-- Removes every `tool_use`/`tool_result` block from a message's array
content, leaving everything else untouched. -/
def dropToolBlocks (m : AnthropicMessage) : AnthropicMessage :=
  { m with content :=
      match m.content with
      | AnthropicContent.str s => AnthropicContent.str s
      | AnthropicContent.blocks bs =>
        AnthropicContent.blocks (bs.filter fun b => !isToolBlock b) }

/-- The image-URL strings occurring in a piece of converted content. -/
def imageUrlsOf : OAIContent → List String
  | OAIContent.str _ => []
  | OAIContent.parts ps =>
    ps.filterMap fun p =>
      match p with
      | OAIPart.imageUrl u => some u
      | _ => none

/-- The image-URL strings an Anthropic block list should give rise to: one
`data:<mediaType>;base64,<payload>` locator per image block, in order. -/
def blockImageUrls (bs : List ContentBlock) : List String :=
  bs.filterMap fun b =>
    match b with
    | ContentBlock.image mt d => some (imageUrlOf mt d)
    | _ => none

/-- Number of maximal runs of consecutive same-role messages: the length of
the role sequence with adjacent duplicates removed. -/
def countSameRoleRuns (h : List AnthropicMessage) : Nat :=
  ((h.map (fun x => x.role)).destutter (· ≠ ·)).length

theorem mergeStep_map_role (acc : List OAIMessage) (m : AnthropicMessage) :
    (mergeStep acc m).map (fun x => x.role) = pushRole (acc.map (fun x => x.role)) m.role := by
  unfold mergeStep pushRole
  cases hl : acc.getLast? with
  | none =>
    have hml : (acc.map (fun x => x.role)).getLast? = none := by
      rw [List.getLast?_map, hl]; rfl
    simp [hml]
  | some lastMessage =>
    have hml : (acc.map (fun x => x.role)).getLast? = some lastMessage.role := by
      rw [List.getLast?_map, hl]; rfl
    dsimp only
    by_cases hr : lastMessage.role = m.role
    · have hself : (acc.map (fun x => x.role)).dropLast ++ [lastMessage.role] =
          acc.map (fun x => x.role) :=
        List.dropLast_append_getLast? lastMessage.role hml
      have hml' : (acc.map (fun x => x.role)).getLast? = some m.role := by
        rw [hml, hr]
      rw [if_pos hr, if_pos hml']
      cases hc : lastMessage.content <;> cases hn : transcodeContent m.content <;>
        simp only [hc, hn, List.map_append, List.map_cons, List.map_nil,
          List.map_dropLast] <;>
        exact hself
    · have hne : ¬((acc.map (fun x => x.role)).getLast? = some m.role) := by
        rw [hml]; intro h; exact hr (Option.some.injEq _ _ ▸ h)
      rw [if_neg hr, if_neg hne]
      simp only [List.map_append, List.map_cons, List.map_nil]

theorem foldl_mergeStep_map_role :
    ∀ (l : List AnthropicMessage) (acc : List OAIMessage),
      (l.foldl mergeStep acc).map (fun x => x.role) =
        (l.map (fun x => x.role)).foldl pushRole (acc.map (fun x => x.role)) := by
  intro l
  induction l with
  | nil => intro acc; rfl
  | cons m t ih =>
    intro acc
    simp only [List.foldl_cons, List.map_cons]
    rw [ih, mergeStep_map_role]

theorem foldl_pushRole_destutter :
    ∀ (l : List Role) (init : List Role) (p : Role), init.getLast? = some p →
      l.foldl pushRole init = init.dropLast ++ List.destutter' (· ≠ ·) p l := by
  intro l
  induction l with
  | nil =>
    intro init p hp
    simp [List.destutter'_nil, List.dropLast_append_getLast? p hp]
  | cons r t ih =>
    intro init p hp
    simp only [List.foldl_cons, List.destutter'_cons]
    by_cases h : p = r
    · have hpr : pushRole init r = init := by
        unfold pushRole; rw [hp, h]; simp
      rw [hpr, ih init p hp]
      simp [h]
    · have hpr : pushRole init r = init ++ [r] := by
        unfold pushRole; rw [hp]
        simp only [Option.some.injEq]
        exact if_neg h
      have hlast : (init ++ [r]).getLast? = some r := List.getLast?_concat init
      rw [hpr, ih (init ++ [r]) r hlast, List.dropLast_concat]
      have : init = init.dropLast ++ [p] := (List.dropLast_append_getLast? p hp).symm
      rw [if_pos h]
      conv_lhs => rw [this]
      simp

theorem clearReasoningFromMessage_role (m : AnthropicMessage) :
    (clearReasoningFromMessage m).role = m.role := by
  unfold clearReasoningFromMessage
  by_cases h : m.role = Role.assistant
  · cases m.reasoning_content <;> simp [h]
  · simp [h]

theorem clear_map_role (h : List AnthropicMessage) :
    (clearReasoningContentFromMessages h).map (fun x => x.role) =
      h.map (fun x => x.role) := by
  unfold clearReasoningContentFromMessages
  rw [List.map_map]
  exact List.map_congr_left fun m _ => clearReasoningFromMessage_role m

theorem convert_map_role (h : List AnthropicMessage) :
    (convertToR1Format h).map (fun x => x.role) =
      (h.map (fun x => x.role)).destutter (· ≠ ·) := by
  unfold convertToR1Format
  rw [foldl_mergeStep_map_role, clear_map_role]
  cases hh : h.map (fun x => x.role) with
  | nil => rfl
  | cons r t =>
    rw [List.destutter_cons']
    have h1 : pushRole [] r = [r] := by unfold pushRole; simp
    simp only [List.foldl_cons, List.map_nil, h1]
    have := foldl_pushRole_destutter t [r] r rfl
    rw [this]
    rfl

theorem mergeStep_reasoning_none (acc : List OAIMessage) (m : AnthropicMessage)
    (hacc : ∀ x ∈ acc, x.reasoning_content = none) :
    ∀ x ∈ mergeStep acc m, x.reasoning_content = none := by
  have hdrop : ∀ x ∈ acc.dropLast, x.reasoning_content = none :=
    fun x hx => hacc x (List.dropLast_subset acc hx)
  unfold mergeStep
  cases hl : acc.getLast? with
  | none =>
    dsimp only
    intro x hx
    rcases List.mem_append.1 hx with h | h
    · exact hacc x h
    · rw [List.mem_singleton.1 h]
  | some lastMessage =>
    dsimp only
    have hlast : lastMessage.reasoning_content = none :=
      hacc _ (List.mem_of_mem_getLast? hl)
    by_cases hr : lastMessage.role = m.role
    · rw [if_pos hr]
      cases hcc : lastMessage.content <;> cases hnc : transcodeContent m.content <;>
        · intro x hx
          rcases List.mem_append.1 hx with h | h
          · exact hdrop x h
          · rw [List.mem_singleton.1 h]
            exact hlast
    · rw [if_neg hr]
      intro x hx
      rcases List.mem_append.1 hx with h | h
      · exact hacc x h
      · rw [List.mem_singleton.1 h]

theorem foldl_mergeStep_reasoning_none :
    ∀ (l : List AnthropicMessage) (acc : List OAIMessage),
      (∀ x ∈ acc, x.reasoning_content = none) →
      ∀ x ∈ l.foldl mergeStep acc, x.reasoning_content = none := by
  intro l
  induction l with
  | nil => intro acc hacc; exact hacc
  | cons m t ih =>
    intro acc hacc
    simp only [List.foldl_cons]
    exact ih _ (mergeStep_reasoning_none acc m hacc)

theorem filterMap_filter_toolfree {α : Type} (f : ContentBlock → Option α)
    (hf : ∀ b, isToolBlock b = true → f b = none) :
    ∀ bs : List ContentBlock,
      (bs.filter fun b => !isToolBlock b).filterMap f = bs.filterMap f := by
  intro bs
  induction bs with
  | nil => rfl
  | cons b t ih =>
    by_cases hb : isToolBlock b = true
    · rw [List.filter_cons_of_neg (by simp [hb]),
        List.filterMap_cons_none (hf b hb), ih]
    · rw [List.filter_cons_of_pos (by simpa using hb),
        List.filterMap_cons, List.filterMap_cons, ih]

theorem any_filter_toolfree (g : ContentBlock → Bool)
    (hg : ∀ b, isToolBlock b = true → g b = false) :
    ∀ bs : List ContentBlock,
      ((bs.filter fun b => !isToolBlock b).any g) = bs.any g := by
  intro bs
  induction bs with
  | nil => rfl
  | cons b t ih =>
    by_cases hb : isToolBlock b = true
    · rw [List.filter_cons_of_neg (by simp [hb]), List.any_cons, hg b hb, ih]
      simp
    · rw [List.filter_cons_of_pos (by simpa using hb), List.any_cons, List.any_cons, ih]

theorem blockTexts_filter (bs : List ContentBlock) :
    blockTexts (bs.filter fun b => !isToolBlock b) = blockTexts bs := by
  unfold blockTexts
  exact filterMap_filter_toolfree _
    (by intro b hb; cases b <;> simp_all [isToolBlock]) bs

theorem blockImageParts_filter (bs : List ContentBlock) :
    blockImageParts (bs.filter fun b => !isToolBlock b) = blockImageParts bs := by
  unfold blockImageParts
  exact filterMap_filter_toolfree _
    (by intro b hb; cases b <;> simp_all [isToolBlock]) bs

theorem blocksHaveImages_filter (bs : List ContentBlock) :
    blocksHaveImages (bs.filter fun b => !isToolBlock b) = blocksHaveImages bs := by
  unfold blocksHaveImages
  exact any_filter_toolfree _
    (by intro b hb; cases b <;> simp_all [isToolBlock]) bs

theorem transcode_blocks_filter (bs : List ContentBlock) :
    transcodeContent (AnthropicContent.blocks (bs.filter fun b => !isToolBlock b)) =
      transcodeContent (AnthropicContent.blocks bs) := by
  simp only [transcodeContent]
  rw [blockTexts_filter, blockImageParts_filter, blocksHaveImages_filter]

theorem transcode_dropTool (m : AnthropicMessage) :
    transcodeContent (dropToolBlocks m).content = transcodeContent m.content := by
  cases hc : m.content with
  | str s =>
    have hd : (dropToolBlocks m).content = AnthropicContent.str s := by
      simp [dropToolBlocks, hc]
    rw [hd]
  | blocks bs =>
    have hd : (dropToolBlocks m).content =
        AnthropicContent.blocks (bs.filter fun b => !isToolBlock b) := by
      simp [dropToolBlocks, hc]
    rw [hd]
    exact transcode_blocks_filter bs

theorem mergeStep_congr (acc : List OAIMessage) (m m' : AnthropicMessage)
    (hrole : m'.role = m.role)
    (hc : transcodeContent m'.content = transcodeContent m.content) :
    mergeStep acc m' = mergeStep acc m := by
  unfold mergeStep
  rw [hrole, hc]

theorem foldl_mergeStep_dropTool :
    ∀ (l : List AnthropicMessage) (acc : List OAIMessage),
      (l.map dropToolBlocks).foldl mergeStep acc = l.foldl mergeStep acc := by
  intro l
  induction l with
  | nil => intro acc; rfl
  | cons m t ih =>
    intro acc
    simp only [List.map_cons, List.foldl_cons]
    rw [mergeStep_congr acc m (dropToolBlocks m) rfl (transcode_dropTool m), ih]

theorem clear_dropTool_comm (h : List AnthropicMessage) :
    clearReasoningContentFromMessages (h.map dropToolBlocks) =
      (clearReasoningContentFromMessages h).map dropToolBlocks := by
  unfold clearReasoningContentFromMessages
  rw [List.map_map, List.map_map]
  apply List.map_congr_left
  intro m _
  show clearReasoningFromMessage (dropToolBlocks m) = dropToolBlocks (clearReasoningFromMessage m)
  unfold clearReasoningFromMessage dropToolBlocks
  by_cases hr : m.role = Role.assistant <;> cases hrc : m.reasoning_content <;>
    simp [hr, hrc]

theorem imageUrls_of_imageParts (bs : List ContentBlock) :
    ((blockImageParts bs).filterMap fun p =>
      match p with
      | OAIPart.imageUrl u => some u
      | _ => none) = blockImageUrls bs := by
  unfold blockImageParts blockImageUrls
  induction bs with
  | nil => rfl
  | cons b t ih => cases b <;> simp [List.filterMap_cons, ih]

theorem blockImageUrls_nil_of_no_images (bs : List ContentBlock)
    (h : blocksHaveImages bs = false) : blockImageUrls bs = [] := by
  unfold blocksHaveImages at h
  unfold blockImageUrls
  induction bs with
  | nil => rfl
  | cons b t ih =>
    rw [List.any_cons] at h
    cases b <;> simp_all [List.filterMap_cons]

theorem transcode_imageUrls (bs : List ContentBlock) :
    imageUrlsOf (transcodeContent (AnthropicContent.blocks bs)) = blockImageUrls bs := by
  simp only [transcodeContent]
  by_cases hi : blocksHaveImages bs = true
  · rw [if_pos hi]
    simp only [imageUrlsOf]
    rw [List.filterMap_append]
    by_cases ht : (blockTexts bs).length > 0
    · rw [if_pos ht]
      simp only [List.filterMap_cons, List.filterMap_nil, List.nil_append]
      exact imageUrls_of_imageParts bs
    · rw [if_neg ht]
      simp only [List.filterMap_nil, List.nil_append]
      exact imageUrls_of_imageParts bs
  · rw [if_neg hi]
    show ([] : List String) = blockImageUrls bs
    exact (blockImageUrls_nil_of_no_images bs (by simpa using hi)).symm

theorem clearReasoningFromMessage_content (m : AnthropicMessage) :
    (clearReasoningFromMessage m).content = m.content := by
  unfold clearReasoningFromMessage
  by_cases hr : m.role = Role.assistant <;> cases hrc : m.reasoning_content <;>
    simp [hr, hrc]

theorem clearReasoningFromMessage_extra (m : AnthropicMessage) :
    (clearReasoningFromMessage m).extra = m.extra := by
  unfold clearReasoningFromMessage
  by_cases hr : m.role = Role.assistant <;> cases hrc : m.reasoning_content <;>
    simp [hr, hrc]

theorem clearReasoningFromMessage_assistant (m : AnthropicMessage)
    (h : m.role = Role.assistant) :
    (clearReasoningFromMessage m).reasoning_content = none := by
  unfold clearReasoningFromMessage
  cases hrc : m.reasoning_content <;> simp [h, hrc]

theorem clearReasoningFromMessage_nonassistant (m : AnthropicMessage)
    (h : ¬m.role = Role.assistant) : clearReasoningFromMessage m = m := by
  simp [clearReasoningFromMessage, h]

theorem clearReasoningFromMessage_of_none (m : AnthropicMessage)
    (h : m.reasoning_content = none) : clearReasoningFromMessage m = m := by
  unfold clearReasoningFromMessage
  by_cases hr : m.role = Role.assistant <;> simp [hr, h]

theorem isNewUserTurn_eval (xs : List AnthropicMessage) (p l : AnthropicMessage)
    (hl : l.role = Role.assistant) (hnt : contentHasToolUse l.content = false) :
    isNewUserTurn (xs ++ [p, l]) =
      (match p.role with
       | Role.user => if contentHasToolResult p.content then false else true
       | Role.assistant => false) := by
  have hsplit : xs ++ [p, l] = (xs ++ [p]) ++ [l] := by simp
  have e1 : (xs ++ [p, l]).getLast? = some l := by
    rw [hsplit]; exact List.getLast?_concat _
  have e2 : (xs ++ [p, l]).dropLast = xs ++ [p] := by
    rw [hsplit]; exact List.dropLast_concat
  have e3 : (xs ++ [p]).getLast? = some p := List.getLast?_concat xs
  have e4 : ¬((xs ++ [p, l]).length = 1) := by simp
  have e5 : ¬(contentHasToolUse l.content = true) := by simp [hnt]
  unfold isNewUserTurn
  rw [e1]
  dsimp only
  rw [hl]
  dsimp only
  rw [if_neg e5, if_neg e4, e2, e3]

/-- C1: evaluation of the code at the failing input.  Merging the consecutive
assistant messages `{content: "First part", reasoning_content: "Reasoning 1"}`
and `{content: "Second part", reasoning_content: "Reasoning 2"}`, the merged
output message carries no reasoning trace at all (`none`) rather than the
later message's trace `"Reasoning 2"`: `convertToR1Format` clears
`reasoning_content` from every assistant message before merging and never
attaches a trace to any output message, so the latest-wins retention rule the
claim states does not hold on the code. -/
theorem c1_merge_reasoning_dropped_eval :
    convertToR1Format
      [⟨Role.assistant, AnthropicContent.str "First part", some "Reasoning 1", []⟩,
       ⟨Role.assistant, AnthropicContent.str "Second part", some "Reasoning 2", []⟩] =
      [⟨Role.assistant, OAIContent.str "First part\nSecond part", none⟩] ∧
    (convertToR1Format
      [⟨Role.assistant, AnthropicContent.str "First part", some "Reasoning 1", []⟩,
       ⟨Role.assistant, AnthropicContent.str "Second part", some "Reasoning 2", []⟩]).map
        (fun m => m.reasoning_content) ≠ [some "Reasoning 2"] :=
  ⟨by decide, by decide⟩

/-- C2 counterexample: the converter's output does not contain every
`ToolUse`/`ToolResult` block and does reorder blocks within a message.  A user
message whose content is a single `tool_result` block converts to content `""`
with the tool block gone, and a message `[Image, Text]` converts to
`[Text, Image]` with the text part moved ahead of the earlier image part. -/
theorem c2_tool_blocks_counterexample :
    convertToR1Format
      [⟨Role.user, AnthropicContent.blocks [ContentBlock.toolResult "t1" "res"], none, []⟩] =
      [⟨Role.user, OAIContent.str "", none⟩] ∧
    convertToR1Format
      [⟨Role.user, AnthropicContent.blocks
          [ContentBlock.image "image/png" "i", ContentBlock.text "t"], none, []⟩] =
      [⟨Role.user,
        OAIContent.parts [OAIPart.text "t", OAIPart.imageUrl "data:image/png;base64,i"],
        none⟩] :=
  ⟨by decide, by decide⟩

/-- C2 amended: the transcoder silently drops every `ToolUse`/`ToolResult`
block — converting a history is the same as converting the history with all
tool blocks removed — and messages are never reordered relative to the input
order: the output's role sequence is exactly the input's role sequence with
adjacent duplicates collapsed (one output message per maximal same-role run,
in input order). -/
theorem c2_amended_tool_drop_and_message_order (h : List AnthropicMessage) :
    convertToR1Format (h.map dropToolBlocks) = convertToR1Format h ∧
    (convertToR1Format h).map (fun x => x.role) =
      (h.map (fun x => x.role)).destutter (· ≠ ·) := by
  refine ⟨?_, convert_map_role h⟩
  unfold convertToR1Format
  rw [clear_dropTool_comm, foldl_mergeStep_dropTool]

/-- C3: in the output of `convertToR1Format`, no two adjacent messages have
the same role. -/
theorem c3_no_adjacent_same_role (h : List AnthropicMessage) :
    (convertToR1Format h).Chain' (fun a b => a.role ≠ b.role) := by
  have h1 := List.destutter_is_chain' (· ≠ ·) (h.map (fun x => x.role))
  rw [← convert_map_role h] at h1
  exact (List.chain'_map (fun (x : OAIMessage) => x.role)).1 h1

/-- C4: scrubbing with `shouldClear = false` returns the history itself, so
in particular every reasoning trace present on input messages is retained. -/
theorem c4_scrub_false_identity (h : List AnthropicMessage) :
    scrub h false = h ∧
    (scrub h false).map (fun m => m.reasoning_content) =
      h.map (fun m => m.reasoning_content) :=
  ⟨rfl, rfl⟩

/-- C5: scrubbing with `shouldClear = true` keeps length and order; each
assistant message loses its reasoning trace while role, content and every
other (extension) field are preserved exactly; non-assistant messages are
returned unchanged; and a message with no trace is returned unchanged (the
absence of a trace is a no-op, never an error). -/
theorem c5_clear_true_frame (h : List AnthropicMessage) :
    (clearReasoningContentFromMessages h).length = h.length ∧
    ∀ (i : Nat) (m : AnthropicMessage), h[i]? = some m →
      ∃ m', (clearReasoningContentFromMessages h)[i]? = some m' ∧
        m'.role = m.role ∧ m'.content = m.content ∧ m'.extra = m.extra ∧
        (m.role = Role.assistant → m'.reasoning_content = none) ∧
        (¬m.role = Role.assistant → m' = m) ∧
        (m.reasoning_content = none → m' = m) := by
  constructor
  · simp [clearReasoningContentFromMessages]
  · intro i m hm
    refine ⟨clearReasoningFromMessage m, ?_, clearReasoningFromMessage_role m,
      clearReasoningFromMessage_content m, clearReasoningFromMessage_extra m,
      clearReasoningFromMessage_assistant m, clearReasoningFromMessage_nonassistant m,
      clearReasoningFromMessage_of_none m⟩
    simp [clearReasoningContentFromMessages, List.getElem?_map, hm]

/-- Witness for C5: the frame theorem applied at a one-message history whose
assistant message carries trace "R" and extension field ("k", "v"). -/
theorem c5_clear_true_frame_witness :
    ([⟨Role.assistant, AnthropicContent.str "a", some "R", [("k", "v")]⟩] :
        List AnthropicMessage)[0]? =
      some ⟨Role.assistant, AnthropicContent.str "a", some "R", [("k", "v")]⟩ ∧
    ∃ m', (clearReasoningContentFromMessages
        [⟨Role.assistant, AnthropicContent.str "a", some "R", [("k", "v")]⟩])[0]? =
          some m' ∧
      m'.role = Role.assistant ∧
      m'.content = AnthropicContent.str "a" ∧
      m'.extra = [("k", "v")] ∧
      (Role.assistant = Role.assistant → m'.reasoning_content = none) ∧
      (¬Role.assistant = Role.assistant →
        m' = ⟨Role.assistant, AnthropicContent.str "a", some "R", [("k", "v")]⟩) ∧
      ((some "R" : Option String) = none →
        m' = ⟨Role.assistant, AnthropicContent.str "a", some "R", [("k", "v")]⟩) :=
  ⟨rfl, (c5_clear_true_frame
    [⟨Role.assistant, AnthropicContent.str "a", some "R", [("k", "v")]⟩]).2 0
    ⟨Role.assistant, AnthropicContent.str "a", some "R", [("k", "v")]⟩ rfl⟩

/-- C6: for a history of length at least 2 whose last message is an assistant
message with no `tool_use` block: if the second-to-last message is a user
message containing a `tool_result` block the detector returns false; if it is
a user message without any `tool_result` block it returns true; and if it is
an assistant message it returns false. -/
theorem c6_penultimate_cases (xs : List AnthropicMessage) (p l : AnthropicMessage)
    (hl : l.role = Role.assistant) (hnt : contentHasToolUse l.content = false) :
    ((p.role = Role.user ∧ contentHasToolResult p.content = true) →
        isNewUserTurn (xs ++ [p, l]) = false) ∧
    ((p.role = Role.user ∧ contentHasToolResult p.content = false) →
        isNewUserTurn (xs ++ [p, l]) = true) ∧
    (p.role = Role.assistant → isNewUserTurn (xs ++ [p, l]) = false) := by
  have he := isNewUserTurn_eval xs p l hl hnt
  refine ⟨?_, ?_, ?_⟩
  · rintro ⟨hp, ht⟩
    rw [he, hp]
    simp [ht]
  · rintro ⟨hp, ht⟩
    rw [he, hp]
    simp [ht]
  · intro hp
    rw [he, hp]

/-- Witness for C6: Scenario 5's tail — second-to-last user message holding a
tool_result, last assistant message "done" — yields false. -/
theorem c6_penultimate_cases_witness :
    (⟨Role.assistant, AnthropicContent.str "done", none, []⟩ :
        AnthropicMessage).role = Role.assistant ∧
    contentHasToolUse (AnthropicContent.str "done") = false ∧
    isNewUserTurn
      [⟨Role.user, AnthropicContent.blocks [ContentBlock.toolResult "t1" "ok"], none, []⟩,
       ⟨Role.assistant, AnthropicContent.str "done", none, []⟩] = false :=
  ⟨rfl, rfl,
    (c6_penultimate_cases []
      ⟨Role.user, AnthropicContent.blocks [ContentBlock.toolResult "t1" "ok"], none, []⟩
      ⟨Role.assistant, AnthropicContent.str "done", none, []⟩ rfl rfl).1
      ⟨rfl, by decide⟩⟩

/-- C7: the empty history is a new turn; any history whose last message has
role user is a new turn; and any history whose last message is an assistant
message containing a `tool_use` block is not a new turn, regardless of the
other blocks in it. -/
theorem c7_basic_cases :
    isNewUserTurn ([] : List AnthropicMessage) = true ∧
    (∀ (h : List AnthropicMessage) (m : AnthropicMessage),
      h.getLast? = some m → m.role = Role.user → isNewUserTurn h = true) ∧
    (∀ (h : List AnthropicMessage) (m : AnthropicMessage),
      h.getLast? = some m → m.role = Role.assistant →
      contentHasToolUse m.content = true → isNewUserTurn h = false) := by
  refine ⟨rfl, ?_, ?_⟩
  · intro h m hlast hrole
    unfold isNewUserTurn
    rw [hlast]
    dsimp only
    rw [hrole]
  · intro h m hlast hrole htool
    unfold isNewUserTurn
    rw [hlast]
    dsimp only
    rw [hrole]
    dsimp only
    rw [if_pos htool]

/-- Witness for C7: a last user message gives true; a sole assistant message
with a tool_use block gives false. -/
theorem c7_basic_cases_witness :
    ([⟨Role.user, AnthropicContent.str "q", none, []⟩] :
        List AnthropicMessage).getLast? =
      some ⟨Role.user, AnthropicContent.str "q", none, []⟩ ∧
    isNewUserTurn [⟨Role.user, AnthropicContent.str "q", none, []⟩] = true ∧
    isNewUserTurn
      [⟨Role.assistant,
        AnthropicContent.blocks [ContentBlock.toolUse "t1" "w" "x"], none, []⟩] = false :=
  ⟨rfl,
    c7_basic_cases.2.1 _ _ rfl rfl,
    c7_basic_cases.2.2 _ _ rfl rfl (by decide)⟩

/-- C8: the number of output messages equals the number of maximal runs of
consecutive same-role messages in the input; in particular empty input yields
empty output, and since the count covers every input message, messages with
empty string or empty array content are never skipped. -/
theorem c8_output_length_eq_runs (h : List AnthropicMessage) :
    (convertToR1Format h).length = countSameRoleRuns h ∧
    convertToR1Format ([] : List AnthropicMessage) = [] := by
  refine ⟨?_, rfl⟩
  have hc := congrArg List.length (convert_map_role h)
  simpa [countSameRoleRuns] using hc

/-- C9: an image block with media type `mt` and base64 payload `d` produces an
image part whose locator string is exactly `"data:" ++ mt ++ ";base64," ++ d`;
the image-URL strings of any transcoded block list are exactly those locators
in order, and the scenario history `[{user, [Image(jpeg, "d")]}]` converts to
one image part with URL `"data:image/jpeg;base64,d"`. -/
theorem c9_image_locator :
    (∀ mt d : String, imageUrlOf mt d = "data:" ++ mt ++ ";base64," ++ d) ∧
    (∀ bs : List ContentBlock,
      imageUrlsOf (transcodeContent (AnthropicContent.blocks bs)) = blockImageUrls bs) ∧
    convertToR1Format
      [⟨Role.user, AnthropicContent.blocks [ContentBlock.image "image/jpeg" "d"],
        none, []⟩] =
      [⟨Role.user, OAIContent.parts [OAIPart.imageUrl "data:image/jpeg;base64,d"], none⟩] :=
  ⟨fun mt d => rfl, transcode_imageUrls, by decide⟩

/-- C10: for every input history, no message in the output of
`convertToR1Format` carries a `reasoning_content` field: reasoning is cleared
from all assistant messages before merging and never attached to any output
message. -/
theorem c10_output_reasoning_none (h : List AnthropicMessage) :
    ∀ m ∈ convertToR1Format h, m.reasoning_content = none :=
  foldl_mergeStep_reasoning_none (clearReasoningContentFromMessages h) []
    (by intro x hx; cases hx)

/-- Witness for C10: the single output message of converting an assistant
message that carried trace "R" has no reasoning field. -/
theorem c10_output_reasoning_none_witness :
    (⟨Role.assistant, OAIContent.str "a", none⟩ : OAIMessage) ∈
      convertToR1Format [⟨Role.assistant, AnthropicContent.str "a", some "R", []⟩] ∧
    (⟨Role.assistant, OAIContent.str "a", none⟩ : OAIMessage).reasoning_content = none :=
  ⟨by decide, c10_output_reasoning_none
    [⟨Role.assistant, AnthropicContent.str "a", some "R", []⟩]
    ⟨Role.assistant, OAIContent.str "a", none⟩ (by decide)⟩
